import Mathlib

/-!
Verification of the resumable Google Maps scraping orchestrator
(scraper.js and maps/maps.js) against its natural-language specification.

The JavaScript source is shallowly embedded: JS objects become
association lists from field names to rendered string values, fallible
async operations become Except values, the event-loop concurrency of the
worker pool becomes a small-step transition relation, and the
filesystem / progress side effects become explicit event traces.
-/

namespace GMaps

/-- A JavaScript object, modelled as an association list from property
names to rendered string values.  Property access on a missing key
yields none, mirroring undefined in JS. -/
abbrev JsObj := List (String × String)

/-- Property access: b[k].  Returns none when the property is absent,
mirroring undefined. -/
def jsGet (b : JsObj) (k : String) : Option String :=
  (b.find? (fun p => p.fst == k)).map (fun p => p.snd)

/-- Template-literal rendering of a possibly-undefined value: JS renders
undefined as the string "undefined" inside a template literal. -/
def jsRender : Option String → String
  | none => "undefined"
  | some s => s

/-- The property names of an object, Object.keys(b). -/
def objKeys (b : JsObj) : List String := b.map Prod.fst

/-- The deduplication key computed by removeDuplicates in scraper.js:
the template literal of name, address and phone joined by dashes.
Note the source reads the properties address and phone, not the
formatted_address and phone_number properties that extractBusinessData
actually stores on records. -/
def dedupKey (b : JsObj) : String :=
  jsRender (jsGet b "name") ++ "-" ++ jsRender (jsGet b "address") ++ "-"
    ++ jsRender (jsGet b "phone")

/-- Worker loop of removeDuplicates: filter keeping a record exactly
when its key has not been seen, adding kept keys to the seen set. -/
def removeDupAux : List String → List JsObj → List JsObj
  | _, [] => []
  | seen, b :: rest =>
    if dedupKey b ∈ seen then removeDupAux seen rest
    else b :: removeDupAux (dedupKey b :: seen) rest

/-- removeDuplicates from scraper.js: keeps the first occurrence of
each deduplication key, preserving order. -/
def removeDuplicates (bs : List JsObj) : List JsObj := removeDupAux [] bs

/-- The seen set after the filter of removeDuplicates has traversed a
list, starting from a given seen set. -/
def seenAfter : List String → List JsObj → List String
  | seen, [] => seen
  | seen, b :: rest =>
    if dedupKey b ∈ seen then seenAfter seen rest
    else seenAfter (dedupKey b :: seen) rest

/-- A concrete record as extractBusinessData stores it: the address and
phone fields are named formatted_address and phone_number. -/
def r1 : JsObj :=
  [("name", "Acme"), ("formatted_address", "1 Main St"), ("phone_number", "+1 111")]

/-- A second record with the same name but different address and phone. -/
def r2 : JsObj :=
  [("name", "Acme"), ("formatted_address", "2 Oak Ave"), ("phone_number", "+2 222")]

/-- The identity key as the specification describes it: the triple of
name, formattedAddress and phoneNumber, substituting the empty string
for a missing field.  Modelled from the spec wording, for comparison
with the dedupKey the source actually computes. -/
def specIdentityKey (b : JsObj) : String × String × String :=
  ((jsGet b "name").getD "", (jsGet b "formatted_address").getD "",
    (jsGet b "phone_number").getD "")

/-- Checks whether needle occurs as a substring of hay, modelling the
JS String.prototype.includes. -/
def containsSub (hay needle : String) : Bool :=
  (List.range (hay.length + 1)).any (fun i => needle.isPrefixOf (hay.drop i))

/-- Truthiness of a JS string property: undefined and the empty string
are falsy. -/
def jsTruthy : Option String → Bool
  | none => false
  | some s => !s.isEmpty

/-- filterByCategory from scraper.js: with an empty allow list all
records pass; a record with a falsy category passes; otherwise some
allowed entry must occur, case-insensitively, inside the category. -/
def filterByCategory (allowed : List String) (bs : List JsObj) : List JsObj :=
  if allowed.isEmpty then bs
  else bs.filter (fun b =>
    if !(jsTruthy (jsGet b "category")) then true
    else allowed.any (fun a =>
      containsSub ((jsGet b "category").getD "").toLower a.toLower))

/-- The record decoration done by searchMapsWithRetry on a successful
fetch: the spread of the business record extended with provenance
fields.  None of the added names collide with the names stored by
extractBusinessData, so the spread is appending. -/
def decorate (query countrycode countryname statename cityname : String)
    (b : JsObj) : JsObj :=
  b ++ [("source_name", "google"), ("source_query", query),
        ("source_country", countrycode), ("country", countryname),
        ("state", statename), ("city", cityname)]

/-- Outcome of a retry wrapper call: the value returned (or the error
propagated) to the caller, the number of attempts performed, and the
durations waited between attempts, in order. -/
structure RetryOutcome where
  result : Except String (List JsObj)
  attempts : Nat
  delays : List Nat

/-- Loop body of searchMapsWithRetry in scraper.js.  The operation is
indexed by attempt number; rand models the successive draws of
getRandomInt 1000 3000 used as the inter-attempt sleep.  On the final
failed attempt the source logs and returns the empty array: the error
is not re-raised.  Fuel is retries plus one minus the current attempt;
the zero-fuel branch is unreachable from the entry point. -/
def searchRetryGo (op : Nat → Except String (List JsObj))
    (post : List JsObj → List JsObj) (rand : Nat → Nat) (retries : Nat) :
    Nat → Nat → RetryOutcome
  | attempt, 0 => ⟨Except.ok [], attempt, []⟩
  | attempt, fuel + 1 =>
    match op attempt with
    | Except.ok bs => ⟨Except.ok (post bs), attempt + 1, []⟩
    | Except.error _ =>
      if attempt = retries then ⟨Except.ok [], attempt + 1, []⟩
      else
        let rest := searchRetryGo op post rand retries (attempt + 1) fuel
        ⟨rest.result, rest.attempts, rand attempt :: rest.delays⟩

/-- searchMapsWithRetry from scraper.js, embedded over an abstract
per-attempt operation standing for the searchGoogleMaps call.  The
post-processing applied to a successful result is the provenance
decoration followed by filterByCategory, exactly as in the source. -/
def searchMapsWithRetry (op : Nat → Except String (List JsObj))
    (allowed : List String)
    (query cityname statename countryname countrycode : String)
    (rand : Nat → Nat) (retries : Nat) : RetryOutcome :=
  searchRetryGo op
    (fun bs => filterByCategory allowed
      (bs.map (decorate query countrycode countryname statename cityname)))
    rand retries 0 (retries + 1)

/-- Loop body of withRetry in maps/maps.js.  The loop counts attempts
from one up to maxRetries; a final failed attempt re-throws the last
error; when the loop is never entered the function falls through and
returns undefined, modelled as none.  The waits are delay times the
attempt number. -/
def withRetryGo {α : Type} (op : Nat → Except String α) (delay maxRetries : Nat) :
    Nat → Nat → Except String (Option α) × List Nat
  | _, 0 => (Except.ok none, [])
  | attempt, fuel + 1 =>
    match op attempt with
    | Except.ok a => (Except.ok (some a), [])
    | Except.error e =>
      if attempt = maxRetries then (Except.error e, [])
      else
        let rest := withRetryGo op delay maxRetries (attempt + 1) fuel
        (rest.1, delay * attempt :: rest.2)

/-- withRetry from maps/maps.js: bounded retry with linear backoff that
re-raises the final error; with maxRetries zero the loop body never
runs and undefined is returned. -/
def withRetry {α : Type} (op : Nat → Except String α) (maxRetries delay : Nat) :
    Except String (Option α) × List Nat :=
  withRetryGo op delay maxRetries 1 maxRetries

/-- The fallible stages of one searchGoogleMaps call: the outcome of
each browser-automation step of the body.  smartScroll catches its own
errors internally and so has no failure outcome here. -/
structure FetchEnv where
  launchAttempt : Nat → Except String Unit
  pageSetup : Except String Unit
  navigate : Except String Unit
  waitFeed : Except String Unit
  waitAlt : Except String Unit
  pageContent : Except String String
  parsed : List JsObj

/-- The body of searchGoogleMaps up to its catch handler: browser
launch wrapped in withRetry with three attempts and a base delay of
1000, page setup, navigation, the feed selector wait with its
alternative-selector fallback, page content extraction, and the
cheerio parse producing the business records. -/
def searchPipeline (env : FetchEnv) : Except String (List JsObj) :=
  match (withRetry env.launchAttempt 3 1000).1 with
  | Except.error e => Except.error e
  | Except.ok none => Except.error "TypeError: browser is undefined"
  | Except.ok (some _) =>
    match env.pageSetup with
    | Except.error e => Except.error e
    | Except.ok _ =>
      match env.navigate with
      | Except.error e => Except.error e
      | Except.ok _ =>
        match (match env.waitFeed with
               | Except.ok u => Except.ok u
               | Except.error _ => env.waitAlt) with
        | Except.error e => Except.error e
        | Except.ok _ =>
          match env.pageContent with
          | Except.error e => Except.error e
          | Except.ok _ => Except.ok env.parsed

/-- searchGoogleMaps from maps/maps.js: the whole body sits inside a
try block whose catch handler logs and returns the empty array, so the
function returns a plain record list and never propagates an error. -/
def searchGoogleMaps (env : FetchEnv) : List JsObj :=
  match searchPipeline env with
  | Except.ok bs => bs
  | Except.error _ => []

/-- A concrete fetch environment whose browser launch fails on every
withRetry attempt while every later stage would succeed and the page
would have parsed to a nonempty record list. -/
def envFail : FetchEnv :=
  ⟨fun _ => Except.error "net::ERR_CONNECTION_RESET", Except.ok (),
    Except.ok (), Except.ok (), Except.ok (), Except.ok "<html></html>", [r1]⟩

/-- The completed sets of the persisted ProgressTree: the keys mapped
to true under completed.countries, completed.states and
completed.cities. -/
structure Progress where
  countries : List String
  states : List String
  cities : List String
deriving DecidableEq, Repr

/-- An empty ProgressTree, as loadProgress returns when no progress
file exists. -/
def emptyProgress : Progress := ⟨[], [], []⟩

/-- A state node as returned by statesByCountry: its iso2 code and its
name. -/
structure StateNode where
  iso2 : String
  name : String
deriving DecidableEq, Repr

/-- Observable events of one orchestrator run: fetch calls issued for
a state or city leaf, per-leaf result-file writes, the country-level
export, a successful persist of the ProgressTree, and the
ReferenceError raised at the state boundary of
processStatesConcurrently, whose body reads the undefined identifier
cityKey before the saveProgress call. -/
inductive Ev where
  | fetchState (key : String)
  | fetchCity (key : String)
  | saveStateFile (key : String)
  | saveCityFile (key : String)
  | exportRes (country : String)
  | saveProg (tree : Progress)
  | refErr
deriving DecidableEq, Repr

/-- True exactly on a ProgressTree persist event. -/
def isSaveProg : Ev → Bool
  | Ev.saveProg _ => true
  | _ => false

/-- The city key countryIso-stateIso-cityName used in
completed.cities. -/
def cityKeyOf (ciso siso cname : String) : String :=
  ciso ++ "-" ++ siso ++ "-" ++ cname

/-- The state key countryIso-stateName used in completed.states. -/
def stateKeyOf (ciso sname : String) : String := ciso ++ "-" ++ sname

/-- processCitiesConcurrently from scraper.js, embedded in program
order: every city index is claimed exactly once by the worker pool
(the scheduler model below proves the claims are distinct), a city
whose key is already in completed.cities is skipped before any fetch,
otherwise the city is fetched through searchMapsWithRetry (a total
call: it never throws), its results accumulated, its key marked in the
in-memory tree, and a per-city result file written when the fetch
returned records.  The fetch argument gives the total result of
searchMapsWithRetry for a city name. -/
def processCitiesConcurrently (fetch : String → List JsObj)
    (ciso siso : String) (cities : List String) (pd : Progress) :
    Progress × List JsObj × List Ev :=
  match cities with
  | [] => (pd, [], [])
  | c :: rest =>
    let key := cityKeyOf ciso siso c
    if key ∈ pd.cities then processCitiesConcurrently fetch ciso siso rest pd
    else
      let bs := fetch c
      let pd2 : Progress := { pd with cities := key :: pd.cities }
      let next := processCitiesConcurrently fetch ciso siso rest pd2
      (next.1, bs ++ next.2.1,
        (Ev.fetchCity key :: if bs.isEmpty then [] else [Ev.saveCityFile key])
          ++ next.2.2)

/-- The work done for one unfinished state inside the loop of
processStatesConcurrently, before the state boundary: city-mode states
run their shuffled city list through processCitiesConcurrently when it
is nonempty, state-mode states issue a single state-level fetch. -/
def stateStep (includeCities : Bool)
    (fetchState : String → List JsObj)
    (fetchCity : String → String → List JsObj)
    (citiesOf : String → List String)
    (ciso : String) (s : StateNode) (pd : Progress) :
    Progress × List JsObj × List Ev :=
  if includeCities then
    if (citiesOf s.iso2).isEmpty then (pd, [], [])
    else processCitiesConcurrently (fetchCity s.iso2) ciso s.iso2
      (citiesOf s.iso2) pd
  else (pd, fetchState s.name, [Ev.fetchState (stateKeyOf ciso s.name)])

/-- processStatesConcurrently from scraper.js.  A state whose key is
already in completed.states is skipped.  Otherwise the state is
processed through stateStep, its results pushed, its key marked in the
in-memory tree, the state result file written when records were found,
and then the line progressData.completed.cities[cityKey] = true runs:
cityKey is not defined in that scope, so a ReferenceError is thrown,
aborting the whole function before the saveProgress call that follows
it.  The final component is true when the run was aborted by that
ReferenceError. -/
def processStatesConcurrently (includeCities : Bool)
    (fetchState : String → List JsObj)
    (fetchCity : String → String → List JsObj)
    (citiesOf : String → List String)
    (ciso : String) (states : List StateNode) (pd : Progress) :
    Progress × List JsObj × List Ev × Bool :=
  match states with
  | [] => (pd, [], [], false)
  | s :: rest =>
    let key := stateKeyOf ciso s.name
    if key ∈ pd.states then
      processStatesConcurrently includeCities fetchState fetchCity citiesOf
        ciso rest pd
    else
      let step := stateStep includeCities fetchState fetchCity citiesOf ciso s pd
      let pd3 : Progress := { step.1 with states := key :: step.1.states }
      let tr := step.2.2 ++ if (step.2.1).isEmpty then [] else [Ev.saveStateFile key]
      (pd3, step.2.1, tr ++ [Ev.refErr], true)

/-- processCountry from scraper.js: short-circuits with no work when
the country is already in completed.countries; otherwise runs the
state loop.  When that loop throws (which it does whenever it actually
processed a state), the catch handler returns the empty list; only on
a normal return are the deduplicated results exported, the country
marked complete, and the tree persisted. -/
def processCountry (includeCities : Bool)
    (fetchState : String → List JsObj)
    (fetchCity : String → String → List JsObj)
    (citiesOf : String → List String)
    (ciso : String) (states : List StateNode) (pd : Progress) :
    Progress × List JsObj × List Ev :=
  if ciso ∈ pd.countries then (pd, [], [])
  else
    let run := processStatesConcurrently includeCities fetchState fetchCity
      citiesOf ciso states pd
    if run.2.2.2 then (run.1, [], run.2.2.1)
    else
      let uniq := removeDuplicates run.2.1
      let pd3 : Progress := { run.1 with countries := ciso :: run.1.countries }
      (pd3, uniq, run.2.2.1 ++ [Ev.exportRes ciso, Ev.saveProg pd3])

/-- The state used in the failing scenarios. -/
def stFail : StateNode := ⟨"PG", "Pelagonia"⟩

/-- A sibling state whose fetch succeeds in the C1 scenario. -/
def stOk : StateNode := ⟨"VA", "Vardar"⟩

/-- The five records the succeeding state would return. -/
def fiveRecords : List JsObj :=
  [[("name", "B1")], [("name", "B2")], [("name", "B3")],
   [("name", "B4")], [("name", "B5")]]

/-- Fetch outcome of the C1 scenario: the task for Vardar succeeds
with five records; the task for Pelagonia fails all its retries, which
searchMapsWithRetry surfaces as an empty record list. -/
def scenarioFetch : String → List JsObj :=
  fun sname => if sname = "Vardar" then fiveRecords else []

/-- A partially completed ProgressTree for the witness: the city
Bitola and the state Pelagonia are already complete. -/
def pdResume : Progress := ⟨[], ["MK-Pelagonia"], ["MK-PG-Bitola"]⟩

/-- A fully completed ProgressTree for the witness: the country MK is
already complete. -/
def pdDone : Progress := ⟨["MK"], ["MK-Pelagonia"], ["MK-PG-Bitola"]⟩

/-- Filesystem operations performed by the persistence helpers. -/
inductive FsOp where
  | ensureDir (p : String)
  | writeJson (p : String)
  | renameFile (src dst : String)
deriving DecidableEq, Repr

/-- True exactly on a rename operation. -/
def isRename : FsOp → Bool
  | FsOp.renameFile _ _ => true
  | _ => false

/-- The directory holding the progress file of a query and country. -/
def progressDir (query countryCode : String) : String :=
  "output/" ++ query ++ "/" ++ countryCode

/-- The path of the progress file of a query and country. -/
def progressPath (query countryCode : String) : String :=
  progressDir query countryCode ++ "/progress.json"

/-- saveProgress from scraper.js as its sequence of filesystem
operations: it ensures the directory exists and then writes the JSON
tree directly to progress.json in place. -/
def saveProgress (query countryCode : String) : List FsOp :=
  [FsOp.ensureDir (progressDir query countryCode),
   FsOp.writeJson (progressPath query countryCode)]

/-- The write-then-rename discipline that the specification claims for
the progress save: some temporary path distinct from the target is
written and then renamed over the target.  Modelled from the spec
wording, for comparison with the operations saveProgress performs. -/
def specAtomicReplace (ops : List FsOp) (target : String) : Prop :=
  ∃ tmp, tmp ≠ target ∧ FsOp.writeJson tmp ∈ ops ∧
    FsOp.renameFile tmp target ∈ ops

/-- The CSV cell rendered for a record and column: csv-writer emits
the record field when present and an empty cell otherwise. -/
def csvCell (b : JsObj) (k : String) : String := (jsGet b k).getD ""

/-- exportCSV from scraper.js: with an empty batch it returns without
writing; otherwise the header list is Object.keys of the FIRST record
only, and each record is rendered as one row over those columns. -/
def exportCSV (data : List JsObj) : Option (List String × List (List String)) :=
  match data with
  | [] => none
  | b :: _ =>
    some (objKeys b, data.map (fun q => (objKeys b).map (csvCell q)))

/-- Adds to an accumulator the keys not already present, preserving
first-appearance order. -/
def addKeys (acc : List String) : List String → List String
  | [] => acc
  | k :: rest => if k ∈ acc then addKeys acc rest else addKeys (acc ++ [k]) rest

/-- The union of the keys of a record batch in first-appearance order.
Modelled from the spec: XLSX.utils.json_to_sheet (an external library
call in exportXLSX, not part of this repository) derives the sheet
columns from the keys of all rows of the batch. -/
def unionKeys (data : List JsObj) : List String :=
  data.foldl (fun acc b => addKeys acc (objKeys b)) []

/-- exportXLSX from scraper.js via the json_to_sheet model: columns are
the union of the keys of all records, cells of missing fields blank. -/
def exportXLSX (data : List JsObj) : List String × List (List String) :=
  (unionKeys data, data.map (fun q => (unionKeys data).map (csvCell q)))

/-- The batch exhibiting the C9 divergence: the second record carries
a key the first record lacks. -/
def c9r1 : JsObj := [("name", "Acme")]

/-- Second record of the C9 batch, with the extra website_url key. -/
def c9r2 : JsObj := [("name", "Zed"), ("website_url", "z.example")]

/-- State of the worker pool of processCitiesConcurrently: the shared
task cursor cityIndex, which task index each of the K workers is
currently executing (none when idle), and the history of claimed
indices in claim order.  The source spawns exactly K worker loops
(the Array of CONFIG.parallel nulls mapped to processBatch calls), so
the worker identifiers range over Fin K. -/
structure SchedState (K : Nat) where
  cursor : Nat
  running : Fin K → Option Nat
  claimed : List Nat

/-- Initial scheduler state: cursor at zero, all workers idle. -/
def SchedState.init (K : Nat) : SchedState K := ⟨0, fun _ => none, []⟩

/-- One atomic event-loop turn of the worker pool over a task list of
length n.  A claim turn models the synchronous read-and-increment
cities[cityIndex++] of an idle worker: JS runs it in one event-loop
turn, so it is a single transition.  A finish turn models a worker
returning from its awaited task. -/
inductive SchedStep (n K : Nat) : SchedState K → SchedState K → Prop where
  | claim (s : SchedState K) (w : Fin K) (hidle : s.running w = none)
      (hlt : s.cursor < n) :
      SchedStep n K s
        ⟨s.cursor + 1, Function.update s.running w (some s.cursor),
          s.claimed ++ [s.cursor]⟩
  | finish (s : SchedState K) (w : Fin K) (i : Nat)
      (hrun : s.running w = some i) :
      SchedStep n K s ⟨s.cursor, Function.update s.running w none, s.claimed⟩

/-- The scheduler states reachable from the initial state. -/
def SchedReachable (n K : Nat) (s : SchedState K) : Prop :=
  Relation.ReflTransGen (SchedStep n K) (SchedState.init K) s

/-- The number of workers currently inside a task. -/
def busyCount {K : Nat} (s : SchedState K) : Nat :=
  (Finset.univ.filter (fun w : Fin K => (s.running w).isSome)).card

/-- A scheduler state with two workers in which worker zero has
claimed task zero and is executing it. -/
def sched1 : SchedState 2 :=
  ⟨1, Function.update (fun _ => none) (0 : Fin 2) (some 0), [0]⟩

lemma seenAfter_subset (xs : List JsObj) :
    ∀ seen k, k ∈ seen → k ∈ seenAfter seen xs := by
  induction xs with
  | nil => intro seen k hk; simpa [seenAfter] using hk
  | cons b rest ih =>
    intro seen k hk
    by_cases hb : dedupKey b ∈ seen
    · simpa [seenAfter, hb] using ih seen k hk
    · simp only [seenAfter, if_neg hb]
      exact ih _ k (List.mem_cons_of_mem _ hk)

lemma mem_seenAfter_of_mem (xs : List JsObj) :
    ∀ seen b, b ∈ xs → dedupKey b ∈ seenAfter seen xs := by
  induction xs with
  | nil => intro seen b hb; simp at hb
  | cons a rest ih =>
    intro seen b hb
    rcases List.mem_cons.mp hb with h | h
    · subst h
      by_cases ha : dedupKey b ∈ seen
      · simp only [seenAfter, if_pos ha]
        exact seenAfter_subset rest seen _ ha
      · simp only [seenAfter, if_neg ha]
        exact seenAfter_subset rest _ _ (List.mem_cons_self _ _)
    · by_cases ha : dedupKey a ∈ seen
      · simp only [seenAfter, if_pos ha]
        exact ih seen b h
      · simp only [seenAfter, if_neg ha]
        exact ih _ b h

lemma removeDupAux_append (xs ys : List JsObj) :
    ∀ seen, removeDupAux seen (xs ++ ys)
      = removeDupAux seen xs ++ removeDupAux (seenAfter seen xs) ys := by
  induction xs with
  | nil => intro seen; simp [removeDupAux, seenAfter]
  | cons b rest ih =>
    intro seen
    by_cases hb : dedupKey b ∈ seen
    · simp [removeDupAux, seenAfter, hb, ih]
    · simp [removeDupAux, seenAfter, hb, ih]

lemma removeDupAux_all_seen (ys : List JsObj) :
    ∀ seen, (∀ b ∈ ys, dedupKey b ∈ seen) → removeDupAux seen ys = [] := by
  induction ys with
  | nil => intro seen _; rfl
  | cons b rest ih =>
    intro seen h
    have hb : dedupKey b ∈ seen := h b (List.mem_cons_self _ _)
    simp only [removeDupAux, if_pos hb]
    exact ih seen (fun a ha => h a (List.mem_cons_of_mem _ ha))

lemma removeDupAux_sublist (xs : List JsObj) :
    ∀ seen, (removeDupAux seen xs).Sublist xs := by
  induction xs with
  | nil => intro seen; simp [removeDupAux]
  | cons b rest ih =>
    intro seen
    by_cases hb : dedupKey b ∈ seen
    · simp only [removeDupAux, if_pos hb]
      exact (ih seen).cons b
    · simp only [removeDupAux, if_neg hb]
      exact (ih _).cons₂ b

lemma removeDupAux_first (xs : List JsObj) :
    ∀ seen b, b ∈ removeDupAux seen xs →
      dedupKey b ∉ seen ∧ xs.find? (fun a => dedupKey a == dedupKey b) = some b := by
  induction xs with
  | nil => intro seen b hb; simp [removeDupAux] at hb
  | cons a rest ih =>
    intro seen b hb
    by_cases ha : dedupKey a ∈ seen
    · rw [removeDupAux, if_pos ha] at hb
      obtain ⟨hnot, hfind⟩ := ih seen b hb
      have hne : (dedupKey a == dedupKey b) = false := by
        rcases h : dedupKey a == dedupKey b with _ | _
        · rfl
        · exact absurd (eq_of_beq h ▸ ha) hnot
      refine ⟨hnot, ?_⟩
      rw [List.find?_cons, hne]
      exact hfind
    · rw [removeDupAux, if_neg ha] at hb
      rcases List.mem_cons.mp hb with h | h
      · subst h
        refine ⟨ha, ?_⟩
        rw [List.find?_cons, show (dedupKey b == dedupKey b) = true from beq_self_eq_true _]
      · obtain ⟨hnot, hfind⟩ := ih _ b h
        have hba : dedupKey b ≠ dedupKey a := fun he =>
          hnot (he ▸ List.mem_cons_self _ _)
        have hnseen : dedupKey b ∉ seen := fun hs =>
          hnot (List.mem_cons_of_mem _ hs)
        have hne : (dedupKey a == dedupKey b) = false := by
          rcases h2 : dedupKey a == dedupKey b with _ | _
          · rfl
          · exact absurd (eq_of_beq h2).symm hba
        refine ⟨hnseen, ?_⟩
        rw [List.find?_cons, hne]
        exact hfind

lemma removeDupAux_covers (xs : List JsObj) :
    ∀ seen b, b ∈ xs →
      dedupKey b ∈ seen ∨ ∃ c ∈ removeDupAux seen xs, dedupKey c = dedupKey b := by
  induction xs with
  | nil => intro seen b hb; simp at hb
  | cons a rest ih =>
    intro seen b hb
    by_cases ha : dedupKey a ∈ seen
    · rcases List.mem_cons.mp hb with h | h
      · subst h; exact Or.inl ha
      · rcases ih seen b h with h1 | ⟨c, hc, hck⟩
        · exact Or.inl h1
        · refine Or.inr ⟨c, ?_, hck⟩
          rw [removeDupAux, if_pos ha]; exact hc
    · rcases List.mem_cons.mp hb with h | h
      · subst h
        refine Or.inr ⟨b, ?_, rfl⟩
        rw [removeDupAux, if_neg ha]
        exact List.mem_cons_self _ _
      · rcases ih (dedupKey a :: seen) b h with h1 | ⟨c, hc, hck⟩
        · rcases List.mem_cons.mp h1 with h2 | h2
          · refine Or.inr ⟨a, ?_, h2.symm⟩
            rw [removeDupAux, if_neg ha]
            exact List.mem_cons_self _ _
          · exact Or.inl h2
        · refine Or.inr ⟨c, ?_, hck⟩
          rw [removeDupAux, if_neg ha]
          exact List.mem_cons_of_mem _ hc

/-- Claim C7: for every finite record list R, deduplicating R ++ R
yields exactly the deduplication of R alone; the output is a sublist of
R (original relative order), each kept record is the first record of R
bearing its key, and every key of R is represented in the output. -/
theorem C7_dedup_idempotent_and_order (R : List JsObj) :
    removeDuplicates (R ++ R) = removeDuplicates R ∧
    (removeDuplicates R).Sublist R ∧
    (∀ b ∈ removeDuplicates R, R.find? (fun a => dedupKey a == dedupKey b) = some b) ∧
    (∀ b ∈ R, ∃ c ∈ removeDuplicates R, dedupKey c = dedupKey b) := by
  refine ⟨?_, removeDupAux_sublist R [], ?_, ?_⟩
  · unfold removeDuplicates
    rw [removeDupAux_append R R []]
    rw [removeDupAux_all_seen R (seenAfter [] R)
      (fun b hb => mem_seenAfter_of_mem R [] b hb)]
    simp
  · intro b hb
    exact (removeDupAux_first R [] b hb).2
  · intro b hb
    rcases removeDupAux_covers R [] b hb with h | h
    · simp at h
    · exact h

/-- Witness for claim C7 at a concrete two-record list, discharging
the membership hypotheses of the first-occurrence and coverage parts. -/
theorem C7_witness :
    removeDuplicates ([r1, r2] ++ [r1, r2]) = removeDuplicates [r1, r2] ∧
    List.find? (fun a => dedupKey a == dedupKey r1) [r1, r2] = some r1 :=
  ⟨(C7_dedup_idempotent_and_order [r1, r2]).1,
   (C7_dedup_idempotent_and_order [r1, r2]).2.2.1 r1 (by decide)⟩

/-- Claim C3 evaluated at the failing input: removeDuplicates reads the
absent address and phone properties, so two records that differ in
formatted_address and phone_number but share a name collapse to the
same key name-undefined-undefined and the second is dropped, while the
identity key of the specification distinguishes them. -/
theorem C3_dedup_key_reads_absent_fields :
    dedupKey r1 = "Acme-undefined-undefined" ∧
    dedupKey r2 = "Acme-undefined-undefined" ∧
    removeDuplicates [r1, r2] = [r1] ∧
    specIdentityKey r1 ≠ specIdentityKey r2 := by
  refine ⟨by decide, by decide, by decide, by decide⟩

lemma searchRetryGo_all_fail (op : Nat → Except String (List JsObj))
    (post : List JsObj → List JsObj) (rand : Nat → Nat) (retries : Nat)
    (hfail : ∀ k, (op k).isOk = false) :
    ∀ fuel attempt, attempt + fuel = retries + 1 →
      searchRetryGo op post rand retries attempt fuel
        = ⟨Except.ok [], retries + 1,
            (List.range' attempt (retries - attempt)).map rand⟩ := by
  intro fuel
  induction fuel with
  | zero =>
    intro attempt h
    have ha : attempt = retries + 1 := by omega
    subst ha
    have h0 : retries - (retries + 1) = 0 := by omega
    simp [searchRetryGo, h0]
  | succ f ih =>
    intro attempt h
    rcases hop : op attempt with e | bs
    · by_cases hlast : attempt = retries
      · subst hlast
        have hf : f = 0 := by omega
        subst hf
        simp [searchRetryGo, hop, Nat.sub_self]
      · have hrec := ih (attempt + 1) (by omega)
        have hrange : retries - attempt = (retries - (attempt + 1)) + 1 := by omega
        simp only [searchRetryGo, hop, if_neg hlast, hrec, hrange,
          List.range'_succ, List.map_cons]
    · have hko := hfail attempt
      rw [hop] at hko
      simp [Except.isOk, Except.toBool] at hko

/-- Claim C4 counterexample: an operation that fails on every attempt,
run with one retry, makes the wrapper return the success value of an
empty record list to its caller, not re-raise the last error as the
claim states. -/
theorem C4_counterexample :
    (searchMapsWithRetry (fun _ => Except.error "network down") []
      "q" "" "s" "c" "cc" (fun _ => 1500) 1).result = Except.ok [] := by
  rfl

/-- Claim C4 as amended: when the wrapped operation fails on every
attempt, searchMapsWithRetry swallows the terminal error and returns
the empty record list; it performs exactly retries plus one attempts,
and between consecutive attempts it sleeps the successive draws of
getRandomInt 1000 3000 rather than a linear backoff proportional to
the attempt number; retries equal to zero therefore means exactly one
attempt with no sleep. -/
theorem C4_amended_retry_swallows_error (op : Nat → Except String (List JsObj))
    (allowed : List String)
    (query cityname statename countryname countrycode : String)
    (rand : Nat → Nat) (retries : Nat)
    (hfail : ∀ k, (op k).isOk = false) :
    (searchMapsWithRetry op allowed query cityname statename countryname
        countrycode rand retries).result = Except.ok [] ∧
    (searchMapsWithRetry op allowed query cityname statename countryname
        countrycode rand retries).attempts = retries + 1 ∧
    (searchMapsWithRetry op allowed query cityname statename countryname
        countrycode rand retries).delays = (List.range retries).map rand := by
  have h := searchRetryGo_all_fail op
    (fun bs => filterByCategory allowed
      (bs.map (decorate query countrycode countryname statename cityname)))
    rand retries hfail (retries + 1) 0 (by omega)
  unfold searchMapsWithRetry
  rw [h]
  refine ⟨rfl, rfl, ?_⟩
  simp [List.range_eq_range']

/-- Witness for the amended claim C4 at a concrete always-failing
operation with a retry budget of two. -/
theorem C4_amended_witness :
    (searchMapsWithRetry (fun _ => Except.error "boom") [] "q" "" "s" "c" "cc"
        (fun k => 1000 + k) 2).result = Except.ok [] ∧
    (searchMapsWithRetry (fun _ => Except.error "boom") [] "q" "" "s" "c" "cc"
        (fun k => 1000 + k) 2).attempts = 3 ∧
    (searchMapsWithRetry (fun _ => Except.error "boom") [] "q" "" "s" "c" "cc"
        (fun k => 1000 + k) 2).delays = [1000, 1001] :=
  C4_amended_retry_swallows_error (fun _ => Except.error "boom") [] "q" "" "s" "c" "cc"
    (fun k => 1000 + k) 2 (fun _ => rfl)

/-- Claim C10: searchGoogleMaps never propagates an error: when any
stage of its pipeline fails it returns the empty list, so at the call
site a failed fetch is indistinguishable from a search that found no
businesses, and searchMapsWithRetry wrapped around it always succeeds
on the first attempt, so its retry loop is never triggered by a fetch
failure. -/
theorem C10_fetch_never_propagates_errors (env : FetchEnv)
    (allowed : List String)
    (query cityname statename countryname countrycode : String)
    (rand : Nat → Nat) (retries : Nat) (e : String)
    (herr : searchPipeline env = Except.error e) :
    searchGoogleMaps env = [] ∧
    (searchMapsWithRetry (fun _ => Except.ok (searchGoogleMaps env)) allowed
        query cityname statename countryname countrycode rand retries).attempts = 1 ∧
    (searchMapsWithRetry (fun _ => Except.ok (searchGoogleMaps env)) allowed
        query cityname statename countryname countrycode rand retries).result
      = Except.ok (filterByCategory allowed ((searchGoogleMaps env).map
          (decorate query countrycode countryname statename cityname))) := by
  refine ⟨?_, rfl, rfl⟩
  unfold searchGoogleMaps
  rw [herr]

/-- Witness for claim C10 at the concrete failing environment. -/
theorem C10_witness :
    searchGoogleMaps envFail = [] ∧
    (searchMapsWithRetry (fun _ => Except.ok (searchGoogleMaps envFail)) []
        "q" "" "s" "c" "cc" (fun _ => 0) 5).attempts = 1 :=
  ⟨(C10_fetch_never_propagates_errors envFail [] "q" "" "s" "c" "cc"
      (fun _ => 0) 5 "net::ERR_CONNECTION_RESET" rfl).1,
   (C10_fetch_never_propagates_errors envFail [] "q" "" "s" "c" "cc"
      (fun _ => 0) 5 "net::ERR_CONNECTION_RESET" rfl).2.1⟩

lemma processCities_no_saveProg (fetch : String → List JsObj)
    (ciso siso : String) (cities : List String) :
    ∀ pd, ((processCitiesConcurrently fetch ciso siso cities pd).2.2).all
      (fun e => !(isSaveProg e)) = true := by
  induction cities with
  | nil => intro pd; rfl
  | cons c rest ih =>
    intro pd
    by_cases hc : cityKeyOf ciso siso c ∈ pd.cities
    · simp only [processCitiesConcurrently, if_pos hc]
      exact ih pd
    · simp only [processCitiesConcurrently, if_neg hc, List.all_append,
        List.all_cons, Bool.and_eq_true]
      refine ⟨⟨rfl, ?_⟩, ih _⟩
      cases (fetch c).isEmpty <;> rfl

lemma stateStep_no_saveProg (includeCities : Bool)
    (fetchState : String → List JsObj)
    (fetchCity : String → String → List JsObj)
    (citiesOf : String → List String) (ciso : String) (s : StateNode)
    (pd : Progress) :
    ((stateStep includeCities fetchState fetchCity citiesOf ciso s pd).2.2).all
      (fun e => !(isSaveProg e)) = true := by
  cases includeCities with
  | false => rfl
  | true =>
    simp only [stateStep, if_pos rfl]
    by_cases hcs : (citiesOf s.iso2).isEmpty
    · simp [hcs]
    · simp only [if_neg hcs]
      exact processCities_no_saveProg (fetchCity s.iso2) ciso s.iso2
        (citiesOf s.iso2) pd

lemma processStates_no_saveProg (includeCities : Bool)
    (fetchState : String → List JsObj)
    (fetchCity : String → String → List JsObj)
    (citiesOf : String → List String) (ciso : String)
    (states : List StateNode) :
    ∀ pd, ((processStatesConcurrently includeCities fetchState fetchCity
        citiesOf ciso states pd).2.2.1).all (fun e => !(isSaveProg e)) = true := by
  induction states with
  | nil => intro pd; rfl
  | cons s rest ih =>
    intro pd
    by_cases hs : stateKeyOf ciso s.name ∈ pd.states
    · simp only [processStatesConcurrently, if_pos hs]
      exact ih pd
    · simp only [processStatesConcurrently, if_neg hs, List.all_append,
        Bool.and_eq_true]
      refine ⟨⟨stateStep_no_saveProg includeCities fetchState fetchCity
        citiesOf ciso s pd, ?_⟩, rfl⟩
      cases ((stateStep includeCities fetchState fetchCity citiesOf ciso s
        pd).2.1).isEmpty <;> rfl

/-- Claim C1 evaluated on the scenario from the specification: country
MK, two states, city mode off, the first state failing all retries and
the second succeeding with five records.  The run fetches the failing
state, marks its key true in the in-memory tree (the exhausted retries
produced an empty list indistinguishable from success), then throws
the cityKey ReferenceError, so the sibling state is never processed
and no ProgressTree persist event occurs at all: the persisted tree
shows neither the succeeding key true nor anything else. -/
theorem C1_failed_leaf_is_marked_and_nothing_persisted :
    processStatesConcurrently false scenarioFetch (fun _ _ => []) (fun _ => [])
        "MK" [stFail, stOk] emptyProgress
      = (⟨[], ["MK-Pelagonia"], []⟩, [],
          [Ev.fetchState "MK-Pelagonia", Ev.refErr], true) ∧
    "MK-Pelagonia" ∈ (processStatesConcurrently false scenarioFetch
        (fun _ _ => []) (fun _ => []) "MK" [stFail, stOk] emptyProgress).1.states ∧
    ((processStatesConcurrently false scenarioFetch (fun _ _ => []) (fun _ => [])
        "MK" [stFail, stOk] emptyProgress).2.2.1).all
      (fun e => !(isSaveProg e)) = true := by
  refine ⟨by decide, by decide, by decide⟩

/-- Claim C2 evaluated: a single unfinished state whose fetch returns
one record.  The run fetches it, writes the state result file, and
then aborts on the cityKey ReferenceError: the trace ends without any
ProgressTree persist event, so no save happens at the state boundary;
moreover, for every input whatsoever, the trace of
processStatesConcurrently contains no persist event. -/
theorem C2_state_boundary_save_never_runs :
    (processStatesConcurrently false (fun _ => [r1]) (fun _ _ => [])
        (fun _ => []) "MK" [stFail] emptyProgress
      = (⟨[], ["MK-Pelagonia"], []⟩, [r1],
          [Ev.fetchState "MK-Pelagonia", Ev.saveStateFile "MK-Pelagonia",
            Ev.refErr], true)) ∧
    ∀ includeCities fetchState fetchCity citiesOf ciso states pd,
      ((processStatesConcurrently includeCities fetchState fetchCity citiesOf
          ciso states pd).2.2.1).all (fun e => !(isSaveProg e)) = true := by
  refine ⟨by decide, ?_⟩
  intro includeCities fS fC cOf ciso states pd
  exact processStates_no_saveProg includeCities fS fC cOf ciso states pd

lemma processCities_fetch_not_completed (fetch : String → List JsObj)
    (ciso siso : String) (cities : List String) :
    ∀ pd key, Ev.fetchCity key ∈
        (processCitiesConcurrently fetch ciso siso cities pd).2.2 →
      key ∉ pd.cities := by
  induction cities with
  | nil => intro pd key h; simp [processCitiesConcurrently] at h
  | cons c rest ih =>
    intro pd key h
    by_cases hc : cityKeyOf ciso siso c ∈ pd.cities
    · rw [processCitiesConcurrently, if_pos hc] at h
      exact ih pd key h
    · rw [processCitiesConcurrently, if_neg hc] at h
      simp only [List.mem_append, List.mem_cons] at h
      rcases h with (h1 | h1) | h1
      · rcases h1 with h1
        have : key = cityKeyOf ciso siso c := by
          injection h1 with h2
        rw [this]
        exact hc
      · rcases hbs : (fetch c).isEmpty with _ | _ <;> rw [hbs] at h1 <;>
          simp at h1
      · have := ih _ key h1
        intro hk
        exact this (List.mem_cons_of_mem _ hk)

lemma processCities_fetches_remaining (fetch : String → List JsObj)
    (ciso siso : String) (cities : List String) :
    ∀ pd c, c ∈ cities → cityKeyOf ciso siso c ∉ pd.cities →
      Ev.fetchCity (cityKeyOf ciso siso c) ∈
        (processCitiesConcurrently fetch ciso siso cities pd).2.2 := by
  induction cities with
  | nil => intro pd c h _; simp at h
  | cons a rest ih =>
    intro pd c hmem hkey
    by_cases ha : cityKeyOf ciso siso a ∈ pd.cities
    · rw [processCitiesConcurrently, if_pos ha]
      rcases List.mem_cons.mp hmem with h | h
      · exact absurd (h ▸ ha) hkey
      · exact ih pd c h hkey
    · rw [processCitiesConcurrently, if_neg ha]
      by_cases heq : cityKeyOf ciso siso c = cityKeyOf ciso siso a
      · rw [heq]
        simp
      · rcases List.mem_cons.mp hmem with h | h
        · exact absurd (h ▸ rfl) heq
        · have hk2 : cityKeyOf ciso siso c ∉
              (cityKeyOf ciso siso a) :: pd.cities := by
            intro hin
            rcases List.mem_cons.mp hin with h2 | h2
            · exact heq h2
            · exact hkey h2
          have := ih ⟨pd.countries, pd.states,
            cityKeyOf ciso siso a :: pd.cities⟩ c h hk2
          simp only [List.mem_append]
          right
          exact this

lemma processCities_no_fetchState (fetch : String → List JsObj)
    (ciso siso : String) (cities : List String) :
    ∀ pd key, Ev.fetchState key ∉
      (processCitiesConcurrently fetch ciso siso cities pd).2.2 := by
  induction cities with
  | nil => intro pd key h; simp [processCitiesConcurrently] at h
  | cons c rest ih =>
    intro pd key h
    by_cases hc : cityKeyOf ciso siso c ∈ pd.cities
    · rw [processCitiesConcurrently, if_pos hc] at h
      exact ih pd key h
    · rw [processCitiesConcurrently, if_neg hc] at h
      simp only [List.mem_append, List.mem_cons] at h
      rcases h with (h1 | h1) | h1
      · cases h1
      · rcases hbs : (fetch c).isEmpty with _ | _ <;> rw [hbs] at h1 <;>
          simp at h1
      · exact ih _ key h1

lemma processStates_fetchState_not_completed (includeCities : Bool)
    (fetchState : String → List JsObj)
    (fetchCity : String → String → List JsObj)
    (citiesOf : String → List String) (ciso : String)
    (states : List StateNode) :
    ∀ pd key, Ev.fetchState key ∈
        (processStatesConcurrently includeCities fetchState fetchCity citiesOf
          ciso states pd).2.2.1 →
      key ∉ pd.states := by
  induction states with
  | nil => intro pd key h; simp [processStatesConcurrently] at h
  | cons s rest ih =>
    intro pd key h
    by_cases hs : stateKeyOf ciso s.name ∈ pd.states
    · rw [processStatesConcurrently, if_pos hs] at h
      exact ih pd key h
    · rw [processStatesConcurrently, if_neg hs] at h
      simp only [List.mem_append] at h
      rcases h with (h1 | h1) | h1
      · cases includeCities with
        | false =>
          simp only [stateStep, Bool.false_eq_true, if_neg (by simp : ¬False),
            List.mem_singleton] at h1
          have : key = stateKeyOf ciso s.name := by injection h1
          rw [this]
          exact hs
        | true =>
          simp only [stateStep, if_pos rfl] at h1
          by_cases hcs : (citiesOf s.iso2).isEmpty
          · rw [if_pos hcs] at h1
            simp at h1
          · rw [if_neg hcs] at h1
            exact absurd h1 (processCities_no_fetchState (fetchCity s.iso2)
              ciso s.iso2 (citiesOf s.iso2) pd key)
      · rcases hemp : ((stateStep includeCities fetchState fetchCity citiesOf
            ciso s pd).2.1).isEmpty with _ | _ <;> rw [hemp] at h1 <;>
          simp at h1
      · simp only [List.mem_singleton] at h1
        cases h1

/-- Claim C5, the resume property: a city whose key the loaded
ProgressTree marks complete is never fetched; every city of the list
whose key is not yet complete does get fetched by the city loop; a
state-level fetch is only ever issued for a state whose key is not
complete; and a country whose key is complete short-circuits in
processCountry with no fetch event at all. -/
theorem C5_resume_skips_completed_leaves (fetchC : String → List JsObj)
    (fetchState : String → List JsObj)
    (fetchCity : String → String → List JsObj)
    (citiesOf : String → List String) (includeCities : Bool)
    (ciso siso : String) (cities : List String)
    (states : List StateNode) (pd : Progress) :
    (∀ key, Ev.fetchCity key ∈
        (processCitiesConcurrently fetchC ciso siso cities pd).2.2 →
      key ∉ pd.cities) ∧
    (∀ c, c ∈ cities → cityKeyOf ciso siso c ∉ pd.cities →
      Ev.fetchCity (cityKeyOf ciso siso c) ∈
        (processCitiesConcurrently fetchC ciso siso cities pd).2.2) ∧
    (∀ key, Ev.fetchState key ∈
        (processStatesConcurrently includeCities fetchState fetchCity citiesOf
          ciso states pd).2.2.1 →
      key ∉ pd.states) ∧
    (ciso ∈ pd.countries →
      processCountry includeCities fetchState fetchCity citiesOf ciso states pd
        = (pd, [], [])) := by
  refine ⟨processCities_fetch_not_completed fetchC ciso siso cities pd,
    processCities_fetches_remaining fetchC ciso siso cities pd,
    processStates_fetchState_not_completed includeCities fetchState fetchCity
      citiesOf ciso states pd, ?_⟩
  intro hc
  simp [processCountry, hc]

/-- Witness for claim C5: on a concrete resumed run, the remaining
city Prilep is fetched while completed leaves are skipped, and a
completed country short-circuits with an empty trace. -/
theorem C5_witness :
    Ev.fetchCity (cityKeyOf "MK" "PG" "Prilep") ∈
      (processCitiesConcurrently (fun _ => [r1]) "MK" "PG"
        ["Bitola", "Prilep"] pdResume).2.2 ∧
    processCountry false (fun _ => [r1]) (fun _ _ => []) (fun _ => []) "MK"
      [stFail, stOk] pdDone = (pdDone, [], []) :=
  ⟨(C5_resume_skips_completed_leaves (fun _ => [r1]) (fun _ => [r1])
      (fun _ _ => []) (fun _ => []) false "MK" "PG" ["Bitola", "Prilep"]
      [stFail, stOk] pdResume).2.1 "Prilep" (by decide) (by decide),
   (C5_resume_skips_completed_leaves (fun _ => [r1]) (fun _ => [r1])
      (fun _ _ => []) (fun _ => []) false "MK" "PG" ["Bitola", "Prilep"]
      [stFail, stOk] pdDone).2.2.2 (by decide)⟩

/-- Claim C6 counterexample: the save of the progress tree for a
concrete query and country performs no rename at all, so it is not the
temp-write-then-rename the claim describes. -/
theorem C6_counterexample :
    ¬ specAtomicReplace (saveProgress "shops" "MK")
        (progressPath "shops" "MK") := by
  rintro ⟨tmp, -, -, hmem⟩
  simp [saveProgress] at hmem

/-- Claim C6 as amended: saveProgress ensures the output directory and
then writes the serialized tree directly to
output/query/country/progress.json in a single write, with no
temporary file and no rename, so a crash mid-write can leave a
truncated progress file. -/
theorem C6_amended_save_writes_in_place (query countryCode : String) :
    saveProgress query countryCode
      = [FsOp.ensureDir (progressDir query countryCode),
         FsOp.writeJson (progressPath query countryCode)] ∧
    (saveProgress query countryCode).all (fun op => !(isRename op)) = true := by
  exact ⟨rfl, rfl⟩

lemma mem_addKeys (ks : List String) :
    ∀ acc x, x ∈ addKeys acc ks ↔ x ∈ acc ∨ x ∈ ks := by
  induction ks with
  | nil => intro acc x; simp [addKeys]
  | cons k rest ih =>
    intro acc x
    by_cases hk : k ∈ acc
    · rw [addKeys, if_pos hk, ih]
      constructor
      · rintro (h | h)
        · exact Or.inl h
        · exact Or.inr (List.mem_cons_of_mem _ h)
      · rintro (h | h)
        · exact Or.inl h
        · rcases List.mem_cons.mp h with h1 | h1
          · exact Or.inl (h1 ▸ hk)
          · exact Or.inr h1
    · rw [addKeys, if_neg hk, ih]
      constructor
      · rintro (h | h)
        · rcases List.mem_append.mp h with h1 | h1
          · exact Or.inl h1
          · simp only [List.mem_singleton] at h1
            exact Or.inr (h1 ▸ List.mem_cons_self _ _)
        · exact Or.inr (List.mem_cons_of_mem _ h)
      · rintro (h | h)
        · exact Or.inl (List.mem_append.mpr (Or.inl h))
        · rcases List.mem_cons.mp h with h1 | h1
          · exact Or.inl (List.mem_append.mpr (Or.inr (by simp [h1])))
          · exact Or.inr h1

lemma mem_unionKeys_foldl (data : List JsObj) :
    ∀ acc x, x ∈ data.foldl (fun a b => addKeys a (objKeys b)) acc ↔
      x ∈ acc ∨ ∃ b ∈ data, x ∈ objKeys b := by
  induction data with
  | nil => intro acc x; simp
  | cons b rest ih =>
    intro acc x
    rw [List.foldl_cons, ih, mem_addKeys]
    constructor
    · rintro ((h | h) | ⟨c, hc, hx⟩)
      · exact Or.inl h
      · exact Or.inr ⟨b, List.mem_cons_self _ _, h⟩
      · exact Or.inr ⟨c, List.mem_cons_of_mem _ hc, hx⟩
    · rintro (h | ⟨c, hc, hx⟩)
      · exact Or.inl (Or.inl h)
      · rcases List.mem_cons.mp hc with h1 | h1
        · exact Or.inl (Or.inr (h1 ▸ hx))
        · exact Or.inr ⟨c, h1, hx⟩

/-- Claim C9 counterexample: in a two-record batch where only the
second record has the website_url key, that key is in the union of the
batch keys but not among the CSV columns, which exportCSV takes from
the first record alone: the CSV column set is not the union the claim
describes. -/
theorem C9_counterexample :
    "website_url" ∈ unionKeys [c9r1, c9r2] ∧
    ∀ cols rows, exportCSV [c9r1, c9r2] = some (cols, rows) →
      "website_url" ∉ cols := by
  refine ⟨by decide, ?_⟩
  intro cols rows h
  have hc : cols = objKeys c9r1 := by
    simp [exportCSV] at h
    exact h.1.symm
  rw [hc]
  decide

/-- Claim C9 as amended: for a nonempty batch the CSV column set is
Object.keys of the first record only, a record lacking one of those
columns renders as an empty cell there, and it is the XLSX export
whose column set is the union of the keys present across the batch. -/
theorem C9_amended_csv_first_record_columns (b : JsObj) (data : List JsObj)
    (q : JsObj) (k x : String) (hmiss : jsGet q k = none) :
    exportCSV (b :: data)
      = some (objKeys b, (b :: data).map (fun r => (objKeys b).map (csvCell r))) ∧
    csvCell q k = "" ∧
    ((exportXLSX data).1 = unionKeys data ∧
      (x ∈ unionKeys data ↔ ∃ r ∈ data, x ∈ objKeys r)) := by
  refine ⟨rfl, ?_, rfl, ?_⟩
  · rw [csvCell, hmiss]
    rfl
  · have := mem_unionKeys_foldl data [] x
    simpa [unionKeys] using this

/-- Witness for the amended claim C9 on the concrete two-record
batch. -/
theorem C9_amended_witness :
    exportCSV [c9r1, c9r2]
      = some (objKeys c9r1,
          [c9r1, c9r2].map (fun r => (objKeys c9r1).map (csvCell r))) ∧
    csvCell c9r1 "website_url" = "" :=
  ⟨(C9_amended_csv_first_record_columns c9r1 [c9r2] c9r1 "website_url"
      "website_url" rfl).1,
   (C9_amended_csv_first_record_columns c9r1 [c9r2] c9r1 "website_url"
      "website_url" rfl).2.1⟩

lemma sched_invariant {n K : Nat} {s : SchedState K}
    (h : SchedReachable n K s) :
    s.claimed = List.range s.cursor ∧
    (∀ w i, s.running w = some i → i < s.cursor) ∧
    (∀ w v i, s.running w = some i → s.running v = some i → w = v) := by
  induction h with
  | refl =>
    refine ⟨rfl, ?_, ?_⟩
    · intro w i h1
      simp [SchedState.init] at h1
    · intro w v i h1
      simp [SchedState.init] at h1
  | tail hsteps hstep ih =>
    obtain ⟨ihc, ihb, ihinj⟩ := ih
    cases hstep with
    | claim w hidle hlt =>
      refine ⟨?_, ?_, ?_⟩
      · dsimp only
        rw [ihc]
        exact (List.range_succ _).symm
      · intro u i h1
        dsimp only at h1 ⊢
        by_cases hu : u = w
        · subst hu
          rw [Function.update_same] at h1
          injection h1 with h2
          omega
        · rw [Function.update_noteq hu] at h1
          have := ihb u i h1
          omega
      · intro u v i h1 h2
        dsimp only at h1 h2
        by_cases hu : u = w <;> by_cases hv : v = w
        · rw [hu, hv]
        · subst hu
          rw [Function.update_same] at h1
          rw [Function.update_noteq hv] at h2
          injection h1 with h3
          have := ihb v i h2
          omega
        · subst hv
          rw [Function.update_same] at h2
          rw [Function.update_noteq hu] at h1
          injection h2 with h3
          have := ihb u i h1
          omega
        · rw [Function.update_noteq hu] at h1
          rw [Function.update_noteq hv] at h2
          exact ihinj u v i h1 h2
    | finish w i hrun =>
      refine ⟨ihc, ?_, ?_⟩
      · intro u j h1
        dsimp only at h1 ⊢
        by_cases hu : u = w
        · subst hu
          rw [Function.update_same] at h1
          cases h1
        · rw [Function.update_noteq hu] at h1
          exact ihb u j h1
      · intro u v j h1 h2
        dsimp only at h1 h2
        by_cases hu : u = w
        · subst hu
          rw [Function.update_same] at h1
          cases h1
        · by_cases hv : v = w
          · subst hv
            rw [Function.update_same] at h2
            cases h2
          · rw [Function.update_noteq hu] at h1
            rw [Function.update_noteq hv] at h2
            exact ihinj u v j h1 h2

/-- Claim C8: in every reachable state of the worker pool, at most K
tasks are concurrently inside the task-execution body (there are only
K workers, each inside at most one task), the history of claimed
indices is exactly the range of the cursor and hence has no
duplicates (the shared cursor hands each index to exactly one
claimant), and no two distinct workers are ever inside the same task
index at once. -/
theorem C8_bounded_workers_distinct_claims (n K : Nat) (s : SchedState K)
    (h : SchedReachable n K s) :
    busyCount s ≤ K ∧
    s.claimed = List.range s.cursor ∧
    s.claimed.Nodup ∧
    (∀ w v i, s.running w = some i → s.running v = some i → w = v) := by
  obtain ⟨hc, _, hinj⟩ := sched_invariant h
  refine ⟨?_, hc, ?_, hinj⟩
  · calc busyCount s ≤ Finset.univ.card := Finset.card_filter_le _ _
      _ = K := Finset.card_univ.trans (Fintype.card_fin K)
  · rw [hc]
    exact List.nodup_range _

lemma sched1_reachable : SchedReachable 3 2 sched1 := by
  refine Relation.ReflTransGen.single ?_
  have h := SchedStep.claim (n := 3) (K := 2) (SchedState.init 2) 0 rfl
    (by simp [SchedState.init])
  simpa [SchedState.init, sched1] using h

/-- Witness for claim C8 at the concrete reachable two-worker state in
which one task has been claimed. -/
theorem C8_witness :
    busyCount sched1 ≤ 2 ∧
    sched1.claimed = List.range sched1.cursor ∧
    sched1.claimed.Nodup ∧
    (∀ w v i, sched1.running w = some i → sched1.running v = some i → w = v) :=
  C8_bounded_workers_distinct_claims 3 2 sched1 sched1_reachable

end GMaps

